import Mathlib

/-!
Shallow embedding of the container runtime's core algorithms, together with
proofs checking the specification's claims against them.

Rust strings are modelled as `List Char` so that the string manipulation of
the interface-file codec, the environment installer and the path resolver is
fully executable and structurally recursive.  Rust `HashMap`s are modelled as
association lists with overwrite-on-insert semantics (the order of entries
stands in for the map's iteration order).
-/

set_option autoImplicit false

namespace ContainerRuntime

/-- Rust `String` / `&str`, modelled as a list of characters. -/
abbrev Str := List Char

/-- Association-list model of `HashMap<String, String>`. -/
abbrev FlatMap := List (Str × Str)

/-- Association-list model of `HashMap<String, HashMap<String, String>>`. -/
abbrev NestedMap := List (Str × FlatMap)

/-- Lookup in an association list, i.e. `HashMap::get`. -/
def mapLookup (k : Str) : List (Str × Str) → Option Str
  | [] => none
  | (k', v) :: rest => if k' = k then some v else mapLookup k rest

/-- Lookup in a nested association list. -/
def nestedLookup (k : Str) : NestedMap → Option FlatMap
  | [] => none
  | (k', v) :: rest => if k' = k then some v else nestedLookup k rest

/-- `HashMap::insert`: overwrite the value of an existing key, otherwise
append a fresh entry. -/
def mapInsert (m : List (Str × Str)) (k v : Str) : List (Str × Str) :=
  match m with
  | [] => [(k, v)]
  | (k', v') :: rest =>
    if k' = k then (k, v) :: rest else (k', v') :: mapInsert rest k v

/-- `HashMap::insert` for the nested map. -/
def nestedInsert (m : NestedMap) (k : Str) (v : FlatMap) : NestedMap :=
  match m with
  | [] => [(k, v)]
  | (k', v') :: rest =>
    if k' = k then (k, v) :: rest else (k', v') :: nestedInsert rest k v

/-- `file_map.get_mut(key)` followed by `dev_entry.insert(sk, sv)`: update the
sub-map of an existing key in place. -/
def nestedUpdateSub (m : NestedMap) (k sk sv : Str) : NestedMap :=
  match m with
  | [] => []
  | (k', v') :: rest =>
    if k' = k then (k', mapInsert v' sk sv) :: rest
    else (k', v') :: nestedUpdateSub rest k sk sv

/-- The keys of an association list. -/
def mapKeys {β : Type} (m : List (Str × β)) : List Str := m.map Prod.fst

/-- Rust `str::split` with a single-character separator.  Always returns a
non-empty list of (possibly empty) fields. -/
def splitChar (sep : Char) : Str → List Str
  | [] => [[]]
  | c :: rest =>
    if c = sep then [] :: splitChar sep rest
    else
      match splitChar sep rest with
      | [] => [[c]]
      | w :: ws => (c :: w) :: ws

theorem splitChar_ne_nil (sep : Char) (s : Str) : splitChar sep s ≠ [] := by
  induction s with
  | nil => simp [splitChar]
  | cons c rest ih =>
    simp only [splitChar]
    split
    · simp
    · rcases h : splitChar sep rest with _ | ⟨w, ws⟩ <;> simp

/-- A separator-free string is a single field. -/
theorem splitChar_of_not_mem {sep : Char} {s : Str} (h : sep ∉ s) :
    splitChar sep s = [s] := by
  induction s with
  | nil => rfl
  | cons c rest ih =>
    simp only [List.mem_cons, not_or] at h
    simp only [splitChar]
    rw [if_neg (fun hc => h.1 hc.symm), ih h.2]

/-- Splitting at an explicit separator occurrence peels off the prefix. -/
theorem splitChar_append_sep {sep : Char} {a : Str} (b : Str) (h : sep ∉ a) :
    splitChar sep (a ++ sep :: b) = a :: splitChar sep b := by
  induction a with
  | nil => simp [splitChar]
  | cons c rest ih =>
    simp only [List.mem_cons, not_or] at h
    simp only [List.cons_append, splitChar]
    rw [if_neg (fun hc => h.1 hc.symm), show rest.append (sep :: b) = rest ++ sep :: b from rfl,
      ih h.2]

/-! ## Mount engine (`src/mount.rs`) -/

/-- `libc::MS_ASYNC` (an `msync` flag; the source ORs it in for `async`). -/
def MS_ASYNC : Nat := 1
/-- `libc::MS_RDONLY`. -/
def MS_RDONLY : Nat := 1
/-- `libc::MS_NOSUID`. -/
def MS_NOSUID : Nat := 2
/-- `libc::MS_NODEV`. -/
def MS_NODEV : Nat := 4
/-- `libc::MS_NOEXEC`. -/
def MS_NOEXEC : Nat := 8
/-- `libc::MS_SYNCHRONOUS`. -/
def MS_SYNCHRONOUS : Nat := 16
/-- `libc::MS_REMOUNT`. -/
def MS_REMOUNT : Nat := 32
/-- `libc::MS_DIRSYNC`. -/
def MS_DIRSYNC : Nat := 128
/-- `libc::MS_NOATIME`. -/
def MS_NOATIME : Nat := 1024
/-- `libc::MS_NODIRATIME`. -/
def MS_NODIRATIME : Nat := 2048
/-- `libc::MS_BIND`. -/
def MS_BIND : Nat := 4096
/-- `libc::MS_REC`. -/
def MS_REC : Nat := 16384
/-- `libc::MS_SILENT`. -/
def MS_SILENT : Nat := 32768
/-- `libc::MS_UNBINDABLE`. -/
def MS_UNBINDABLE : Nat := 131072
/-- `libc::MS_PRIVATE`. -/
def MS_PRIVATE : Nat := 262144
/-- `libc::MS_SLAVE`. -/
def MS_SLAVE : Nat := 524288
/-- `libc::MS_SHARED`. -/
def MS_SHARED : Nat := 1048576
/-- `libc::MS_RELATIME`. -/
def MS_RELATIME : Nat := 2097152
/-- `libc::MS_I_VERSION`. -/
def MS_I_VERSION : Nat := 8388608
/-- `libc::MS_STRICTATIME`. -/
def MS_STRICTATIME : Nat := 16777216
/-- `libc::MS_LAZYTIME`. -/
def MS_LAZYTIME : Nat := 33554432

/-- One iteration of the `for opt in options` loop of `parse_mount_options`
in `src/mount.rs`: the accumulator holds the flag word and the
filesystem-specific options collected so far. -/
def mountOptStep (acc : Nat × List String) (opt : String) : Nat × List String :=
  match opt with
  | "async" => (acc.1 ||| MS_ASYNC, acc.2)
  | "atime" => (acc.1 ^^^ MS_NOATIME, acc.2)
  | "bind" => (acc.1 ||| MS_BIND, acc.2)
  | "defaults" => (acc.1 ||| 0, acc.2)
  | "dev" => (acc.1 ||| MS_NODEV, acc.2)
  | "diratime" => (acc.1 ^^^ MS_NODIRATIME, acc.2)
  | "dirsync" => (acc.1 ||| MS_DIRSYNC, acc.2)
  | "exec" => (acc.1 ^^^ MS_NOEXEC, acc.2)
  | "iversion" => (acc.1 ||| MS_I_VERSION, acc.2)
  | "lazytime" => (acc.1 ||| MS_LAZYTIME, acc.2)
  | "loud" => (acc.1 ^^^ MS_SILENT, acc.2)
  | "noatime" => (acc.1 ||| MS_NOATIME, acc.2)
  | "nodev" => (acc.1 ||| MS_NODEV, acc.2)
  | "nodiratime" => (acc.1 ||| MS_NODIRATIME, acc.2)
  | "noexec" => (acc.1 ||| MS_NOEXEC, acc.2)
  | "noiversion" => (acc.1 ^^^ MS_I_VERSION, acc.2)
  | "nolazytime" => (acc.1 ^^^ MS_LAZYTIME, acc.2)
  | "norelatime" => (acc.1 ^^^ MS_RELATIME, acc.2)
  | "nostrictatime" => (acc.1 ^^^ MS_STRICTATIME, acc.2)
  | "nosuid" => (acc.1 ||| MS_NOSUID, acc.2)
  | "private" => (acc.1 ||| MS_PRIVATE, acc.2)
  | "rbind" => (acc.1 ||| (MS_BIND ||| MS_REC), acc.2)
  | "relatime" => (acc.1 ||| MS_RELATIME, acc.2)
  | "remount" => (acc.1 ||| MS_REMOUNT, acc.2)
  | "ro" => (acc.1 ||| MS_RDONLY, acc.2)
  | "rprivate" => (acc.1 ||| MS_PRIVATE, acc.2)
  | "rshared" => (acc.1 ||| MS_SHARED, acc.2)
  | "rslave" => (acc.1 ||| MS_SLAVE, acc.2)
  | "runbindable" => (acc.1 ||| MS_UNBINDABLE, acc.2)
  | "rw" => (acc.1 ^^^ MS_RDONLY, acc.2)
  | "shared" => (acc.1 ||| MS_SHARED, acc.2)
  | "silent" => (acc.1 ^^^ MS_SILENT, acc.2)
  | "slave" => (acc.1 ||| MS_SLAVE, acc.2)
  | "strictatime" => (acc.1 ||| MS_STRICTATIME, acc.2)
  | "suid" => (acc.1 ^^^ MS_NOSUID, acc.2)
  | "sync" => (acc.1 ||| MS_SYNCHRONOUS, acc.2)
  | "unbindable" => (acc.1 ||| MS_UNBINDABLE, acc.2)
  | o => (acc.1, acc.2 ++ [o])

/-- `parse_mount_options` from `src/mount.rs`: fold the option tokens over a
zero flag word and an empty filesystem-options list. -/
def parse_mount_options (options : List String) : Nat × List String :=
  options.foldl mountOptStep (0, [])

/-- The tokens the `match` of `parse_mount_options` recognises; every other
token is pushed onto the filesystem-specific options. -/
def knownMountOptions : List String :=
  ["async", "atime", "bind", "defaults", "dev",
   "diratime", "dirsync", "exec", "iversion",
   "lazytime", "loud", "noatime", "nodev",
   "nodiratime", "noexec", "noiversion", "nolazytime",
   "norelatime", "nostrictatime", "nosuid", "private",
   "rbind", "relatime", "remount", "ro",
   "rprivate", "rshared", "rslave", "runbindable",
   "rw", "shared", "silent", "slave",
   "strictatime", "suid", "sync", "unbindable"]

/-- Whether a token is in the option lexicon of `parse_mount_options`. -/
def isKnownMountOption (o : String) : Bool := decide (o ∈ knownMountOptions)

set_option maxHeartbeats 1000000 in
theorem mountOptStep_fs_opts (acc : Nat × List String) (opt : String) :
    (mountOptStep acc opt).2 =
      if isKnownMountOption opt then acc.2 else acc.2 ++ [opt] := by
  unfold mountOptStep
  split
  all_goals
    first
      | (simp [isKnownMountOption, knownMountOptions]; done)
      | (rw [if_neg]; simp_all [isKnownMountOption, knownMountOptions])

theorem parse_fold_fs_opts (opts : List String) :
    ∀ acc : Nat × List String,
      (opts.foldl mountOptStep acc).2 =
        acc.2 ++ opts.filter (fun o => !(isKnownMountOption o)) := by
  induction opts with
  | nil => intro acc; simp
  | cons o rest ih =>
    intro acc
    by_cases h : isKnownMountOption o
    · simp [List.foldl_cons, ih, List.filter_cons, h, mountOptStep_fs_opts]
    · simp [List.foldl_cons, ih, List.filter_cons, h, mountOptStep_fs_opts]

theorem testBit10_lor (x c : Nat) (h : c.testBit 10 = false) :
    (x ||| c).testBit 10 = x.testBit 10 := by
  simp [Nat.testBit_or, h]

theorem testBit10_xor (x c : Nat) (h : c.testBit 10 = false) :
    (x ^^^ c).testBit 10 = x.testBit 10 := by
  simp [Nat.testBit_xor, h]

set_option maxHeartbeats 1000000 in
theorem mountOptStep_testBit10 (acc : Nat × List String) (opt : String)
    (hA : opt ≠ "atime") (hN : opt ≠ "noatime") :
    ((mountOptStep acc opt).1).testBit 10 = acc.1.testBit 10 := by
  unfold mountOptStep
  split
  · exact testBit10_lor _ _ (by decide)
  · exact absurd rfl hA
  · exact testBit10_lor _ _ (by decide)
  · exact testBit10_lor _ _ (by decide)
  · exact testBit10_lor _ _ (by decide)
  · exact testBit10_xor _ _ (by decide)
  · exact testBit10_lor _ _ (by decide)
  · exact testBit10_xor _ _ (by decide)
  · exact testBit10_lor _ _ (by decide)
  · exact testBit10_lor _ _ (by decide)
  · exact testBit10_xor _ _ (by decide)
  · exact absurd rfl hN
  · exact testBit10_lor _ _ (by decide)
  · exact testBit10_lor _ _ (by decide)
  · exact testBit10_lor _ _ (by decide)
  · exact testBit10_xor _ _ (by decide)
  · exact testBit10_xor _ _ (by decide)
  · exact testBit10_xor _ _ (by decide)
  · exact testBit10_xor _ _ (by decide)
  · exact testBit10_lor _ _ (by decide)
  · exact testBit10_lor _ _ (by decide)
  · exact testBit10_lor _ _ (by decide)
  · exact testBit10_lor _ _ (by decide)
  · exact testBit10_lor _ _ (by decide)
  · exact testBit10_lor _ _ (by decide)
  · exact testBit10_lor _ _ (by decide)
  · exact testBit10_lor _ _ (by decide)
  · exact testBit10_lor _ _ (by decide)
  · exact testBit10_lor _ _ (by decide)
  · exact testBit10_xor _ _ (by decide)
  · exact testBit10_lor _ _ (by decide)
  · exact testBit10_xor _ _ (by decide)
  · exact testBit10_lor _ _ (by decide)
  · exact testBit10_lor _ _ (by decide)
  · exact testBit10_xor _ _ (by decide)
  · exact testBit10_lor _ _ (by decide)
  · exact testBit10_lor _ _ (by decide)
  · rfl

/-- Restriction of a token list to the two tokens that touch the
`MS_NOATIME` bit. -/
def noatimeTokens (opts : List String) : List String :=
  opts.filter (fun o => o = "atime" || o = "noatime")

/-- Effect of one `atime` / `noatime` token on the `MS_NOATIME` bit:
`atime` XORs the bit, `noatime` ORs it. -/
def noatimeBitStep (b : Bool) (o : String) : Bool :=
  if o = "atime" then !b else true

set_option maxHeartbeats 1000000 in
theorem parse_fold_testBit10 (opts : List String) :
    ∀ acc : Nat × List String,
      ((opts.foldl mountOptStep acc).1).testBit 10 =
        (noatimeTokens opts).foldl noatimeBitStep (acc.1.testBit 10) := by
  induction opts with
  | nil => intro acc; simp [noatimeTokens]
  | cons o rest ih =>
    intro acc
    by_cases hA : o = "atime"
    · subst hA
      rw [List.foldl_cons, ih]
      have h1 : (mountOptStep acc "atime").1 = acc.1 ^^^ MS_NOATIME := by
        simp [mountOptStep]
      simp [noatimeTokens, List.filter_cons, h1, Nat.testBit_xor, noatimeBitStep,
        show Nat.testBit MS_NOATIME 10 = true by decide, Bool.xor_true]
    · by_cases hN : o = "noatime"
      · subst hN
        rw [List.foldl_cons, ih]
        have h1 : (mountOptStep acc "noatime").1 = acc.1 ||| MS_NOATIME := by
          simp [mountOptStep]
        simp [noatimeTokens, List.filter_cons, h1, Nat.testBit_lor, noatimeBitStep,
          show Nat.testBit MS_NOATIME 10 = true by decide]
      · rw [List.foldl_cons, ih]
        have h1 := mountOptStep_testBit10 acc o hA hN
        simp [noatimeTokens, List.filter_cons, hA, hN, h1]

/-- The options list of the spec's mount-option example. -/
def mountOptsExample : List String := ["rw", "nosuid", "nodev", "relatime", "myopt=1"]

theorem noatimeTokens_append (x y : List String) :
    noatimeTokens (x ++ y) = noatimeTokens x ++ noatimeTokens y := by
  simp [noatimeTokens]

theorem noatimeTokens_eq_nil {l : List String}
    (hA : "atime" ∉ l) (hN : "noatime" ∉ l) : noatimeTokens l = [] := by
  rw [noatimeTokens, List.filter_eq_nil_iff]
  intro o ho
  simp only [Bool.or_eq_true, decide_eq_true_eq]
  rintro (rfl | rfl)
  · exact hA ho
  · exact hN ho

/-- Claim C4, as stated, is false on the code: on the example options list
`["rw","nosuid","nodev","relatime","myopt=1"]` the parser starts from a zero
flag word and `rw` XORs `MS_RDONLY` into it, so the resulting flag word is
not `MS_NOSUID|MS_NODEV|MS_RELATIME` and `MS_RDONLY` is set. -/
theorem parse_mount_options_example_rdonly_set :
    ¬ ((parse_mount_options mountOptsExample).1 =
         MS_NOSUID ||| MS_NODEV ||| MS_RELATIME ∧
       (parse_mount_options mountOptsExample).1 &&& MS_RDONLY = 0 ∧
       (parse_mount_options mountOptsExample).2 = ["myopt=1"]) := by
  decide

/-- Claim C4 (amended): on the example options list the parser yields the
flag word `MS_RDONLY|MS_NOSUID|MS_NODEV|MS_RELATIME` (so `MS_RDONLY` IS set,
because `rw` is implemented as an XOR against the zero accumulator) with
filesystem options exactly `myopt=1`; tokens outside the lexicon never fail
and become the filesystem-specific options, in order; and clears being XORs,
when `atime` and `noatime` each appear exactly once the last one wins for the
`MS_NOATIME` bit (bit 10, as `MS_NOATIME = 2^10`). -/
theorem parse_mount_options_spec :
    parse_mount_options mountOptsExample =
      (MS_RDONLY ||| MS_NOSUID ||| MS_NODEV ||| MS_RELATIME, ["myopt=1"]) ∧
    (parse_mount_options mountOptsExample).1 &&& MS_RDONLY ≠ 0 ∧
    (∀ opts : List String,
      (parse_mount_options opts).2 = opts.filter (fun o => !(isKnownMountOption o))) ∧
    (∀ a b c : List String,
      "atime" ∉ a ++ b ++ c → "noatime" ∉ a ++ b ++ c →
      (parse_mount_options (a ++ ["atime"] ++ b ++ ["noatime"] ++ c)).1.testBit 10
          = true ∧
      (parse_mount_options (a ++ ["noatime"] ++ b ++ ["atime"] ++ c)).1.testBit 10
          = false) := by
  refine ⟨by decide, by decide, ?_, ?_⟩
  · intro opts
    simpa using parse_fold_fs_opts opts (0, [])
  · intro a b c hA hN
    simp only [List.mem_append, not_or] at hA hN
    have na : noatimeTokens a = [] := noatimeTokens_eq_nil hA.1.1 hN.1.1
    have nb : noatimeTokens b = [] := noatimeTokens_eq_nil hA.1.2 hN.1.2
    have nc : noatimeTokens c = [] := noatimeTokens_eq_nil hA.2 hN.2
    have eA : noatimeTokens ["atime"] = ["atime"] := by decide
    have eN : noatimeTokens ["noatime"] = ["noatime"] := by decide
    constructor
    · rw [show parse_mount_options (a ++ ["atime"] ++ b ++ ["noatime"] ++ c) =
        (a ++ ["atime"] ++ b ++ ["noatime"] ++ c).foldl mountOptStep (0, []) from rfl,
        parse_fold_testBit10]
      rw [noatimeTokens_append, noatimeTokens_append, noatimeTokens_append,
        noatimeTokens_append, na, nb, nc, eA, eN]
      simp [noatimeBitStep]
    · rw [show parse_mount_options (a ++ ["noatime"] ++ b ++ ["atime"] ++ c) =
        (a ++ ["noatime"] ++ b ++ ["atime"] ++ c).foldl mountOptStep (0, []) from rfl,
        parse_fold_testBit10]
      rw [noatimeTokens_append, noatimeTokens_append, noatimeTokens_append,
        noatimeTokens_append, na, nb, nc, eA, eN]
      simp [noatimeBitStep]

/-- Witness for `parse_mount_options_spec` at concrete inputs. -/
theorem parse_mount_options_spec_witness :
    (parse_mount_options (["ro"] ++ ["atime"] ++ ["bind"] ++ ["noatime"] ++ ["rw"])).1.testBit 10
        = true ∧
    (parse_mount_options (["ro"] ++ ["noatime"] ++ ["bind"] ++ ["atime"] ++ ["rw"])).1.testBit 10
        = false :=
  parse_mount_options_spec.2.2.2 ["ro"] ["bind"] ["rw"] (by decide) (by decide)

/-! ## Interface-file codec (`src/cgroup/util.rs`) -/

/-- The error taxonomy of `src/error.rs`, restricted to the kinds the
embedded fragment raises (payload strings are dropped). -/
inductive ContainerErr where
  | io
  | state
  | fifo
  | init
  | child
  | cgroup
  deriving DecidableEq, Repr

/-- Decidable equality for `Except` results, so that concrete codec runs can
be checked by `decide`. -/
instance {e a : Type} [DecidableEq e] [DecidableEq a] : DecidableEq (Except e a) := fun x y =>
  match x, y with
  | .error u, .error v =>
    if h : u = v then isTrue (congrArg Except.error h)
    else isFalse (fun hh => h (by injection hh))
  | .ok u, .ok v =>
    if h : u = v then isTrue (congrArg Except.ok h)
    else isFalse (fun hh => h (by injection hh))
  | .error _, .ok _ => isFalse (fun hh => by injection hh)
  | .ok _, .error _ => isFalse (fun hh => by injection hh)

/-- A file to read is either unreadable (`File::open`/`read_to_string`
fails) or has contents. -/
abbrev FileInput := Option Str

/-- `read_flat_keyed_file` from `src/cgroup/util.rs`: split the contents on
newlines; every line that splits on single spaces into exactly two fields is
inserted into the map; all other lines are skipped. -/
def read_flat_keyed_file (file : FileInput) : Except ContainerErr FlatMap :=
  match file with
  | none => .error .io
  | some buf =>
    .ok ((splitChar '\n' buf).foldl
      (fun data line =>
        match splitChar ' ' line with
        | [k, v] => mapInsert data k v
        | _ => data) [])

/-- `write_flat_keyed_file` from `src/cgroup/util.rs`, pure part: the string
written to the (truncated) file. -/
def write_flat_keyed_file (data : FlatMap) : Str :=
  data.foldl (fun s kv => s ++ kv.1 ++ [' '] ++ kv.2 ++ ['\n']) []

/-- Rust `BufReader::lines` on the whole contents: like splitting on
newlines, but an empty input yields no lines and a trailing newline does not
produce a final empty line.  (Our inputs contain no carriage returns.) -/
def linesOf (s : Str) : List Str :=
  if s = [] then []
  else
    let parts := splitChar '\n' s
    if parts.getLast? = some [] then parts.dropLast else parts

/-- `read_nested_keyed_file` from `src/cgroup/util.rs`: for each line, the
first space-separated field is the key; each later field that splits on `=`
into exactly two parts becomes a sub-map entry; malformed fields are
skipped. -/
def read_nested_keyed_file (file : FileInput) : Except ContainerErr NestedMap :=
  match file with
  | none => .error .io
  | some buf =>
    .ok ((linesOf buf).foldl
      (fun data line =>
        match splitChar ' ' line with
        | [] => data
        | key :: rest =>
          let sub_map := rest.foldl
            (fun sub p =>
              match splitChar '=' p with
              | [sk, sv] => mapInsert sub sk sv
              | _ => sub) ([] : FlatMap)
          nestedInsert data key sub_map) [])

/-- `write_nested_keyed_file` from `src/cgroup/util.rs`, pure part: for each
entry, append the key, a space and the `SUB=VAL` pairs each followed by a
space, then remove the last character of the whole accumulated string.  Note
the source appends no newline between entries. -/
def write_nested_keyed_file (data : NestedMap) : Str :=
  data.foldl
    (fun s kv =>
      let s := s ++ kv.1 ++ [' ']
      let s := kv.2.foldl (fun t p => t ++ p.1 ++ ['='] ++ p.2 ++ [' ']) s
      s.dropLast) []

/-- Classifier for one line of a flat-keyed file: the pair it contributes,
if it has exactly two space-separated fields. -/
def flatLineFields (line : Str) : Option (Str × Str) :=
  match splitChar ' ' line with
  | [k, v] => some (k, v)
  | _ => none

theorem read_flat_foldl_filterMap (ls : List Str) :
    ∀ acc : FlatMap,
      ls.foldl
        (fun data line =>
          match splitChar ' ' line with
          | [k, v] => mapInsert data k v
          | _ => data) acc =
      (ls.filterMap flatLineFields).foldl (fun data kv => mapInsert data kv.1 kv.2) acc := by
  induction ls with
  | nil => intro acc; rfl
  | cons line rest ih =>
    intro acc
    rw [List.foldl_cons, List.filterMap_cons]
    rcases h : splitChar ' ' line with _ | ⟨k, tl⟩
    · exact absurd h (splitChar_ne_nil _ _)
    · rcases tl with _ | ⟨v, tl2⟩
      · simp only [flatLineFields, h]
        rw [ih]
      · rcases tl2 with _ | ⟨w, tl3⟩
        · simp only [flatLineFields, h]
          rw [List.foldl_cons, ih]
        · simp only [flatLineFields, h]
          rw [ih]

/-- Claim C10: the flat-keyed reader is tolerant of malformed lines.  For
every file contents the reader succeeds; the result is the insertion, in
order, of exactly the key-value pairs of those lines that split on single
spaces into exactly two fields, and every other line is ignored. -/
theorem read_flat_keyed_file_tolerant (buf : Str) :
    read_flat_keyed_file (some buf) =
      .ok (((splitChar '\n' buf).filterMap flatLineFields).foldl
        (fun data kv => mapInsert data kv.1 kv.2) []) := by
  rw [read_flat_keyed_file, read_flat_foldl_filterMap]

/-! ### Round-trip properties of the codec -/

/-- The block the flat writer emits for one entry. -/
def flatChunk (kv : Str × Str) : Str := kv.1 ++ ' ' :: kv.2 ++ ['\n']

theorem write_flat_eq_join (m : FlatMap) :
    ∀ init : Str,
      m.foldl (fun s kv => s ++ kv.1 ++ [' '] ++ kv.2 ++ ['\n']) init =
        init ++ (m.map flatChunk).flatten := by
  induction m with
  | nil => intro init; simp
  | cons kv rest ih =>
    intro init
    rw [List.foldl_cons, ih]
    simp [flatChunk]

theorem mapInsert_append_of_not_mem (m : FlatMap) (k v : Str)
    (h : k ∉ mapKeys m) : mapInsert m k v = m ++ [(k, v)] := by
  induction m with
  | nil => rfl
  | cons kv rest ih =>
    simp only [mapKeys, List.map_cons, List.mem_cons, not_or] at h
    rw [mapInsert, if_neg (fun hh => h.1 hh.symm), ih h.2]
    rfl

theorem foldl_mapInsert_eq_append (m : FlatMap) :
    ∀ acc : FlatMap, (mapKeys acc ++ mapKeys m).Nodup →
      m.foldl (fun d kv => mapInsert d kv.1 kv.2) acc = acc ++ m := by
  induction m with
  | nil => intro acc _; simp
  | cons kv rest ih =>
    intro acc hnd
    have hknotin : kv.1 ∉ mapKeys acc := by
      rw [List.nodup_append] at hnd
      intro hin
      exact hnd.2.2 hin (by simp [mapKeys])
    have hnd2 : (mapKeys (acc ++ [kv]) ++ mapKeys rest).Nodup := by
      have e : mapKeys (acc ++ [kv]) ++ mapKeys rest =
          mapKeys acc ++ mapKeys (kv :: rest) := by
        simp [mapKeys]
      rw [e]
      exact hnd
    have h2 := ih (acc ++ [kv]) hnd2
    rw [List.append_assoc] at h2
    rw [List.foldl_cons, mapInsert_append_of_not_mem acc kv.1 kv.2 hknotin]
    exact h2

/-- Well-formedness of one flat-map entry as assumed by the round-trip
claim: key and value contain no separator characters and the value is
non-empty. -/
def flatEntryWf (kv : Str × Str) : Prop :=
  ' ' ∉ kv.1 ∧ '\n' ∉ kv.1 ∧ ' ' ∉ kv.2 ∧ '\n' ∉ kv.2 ∧ kv.2 ≠ []

instance (kv : Str × Str) : Decidable (flatEntryWf kv) := by
  unfold flatEntryWf
  infer_instance

theorem splitChar_newline_flatten (m : FlatMap)
    (h : ∀ kv ∈ m, '\n' ∉ kv.1 ∧ '\n' ∉ kv.2) :
    splitChar '\n' ((m.map flatChunk).flatten) =
      m.map (fun kv => kv.1 ++ ' ' :: kv.2) ++ [[]] := by
  induction m with
  | nil => simp [splitChar]
  | cons kv rest ih =>
    have hkv := h kv (by simp)
    have e : (((kv :: rest).map flatChunk).flatten : Str) =
        (kv.1 ++ ' ' :: kv.2) ++ '\n' :: (rest.map flatChunk).flatten := by
      simp [flatChunk]
    rw [e, splitChar_append_sep _ (by
      simp only [List.mem_append, List.mem_cons, not_or]
      exact ⟨hkv.1, by decide, hkv.2⟩)]
    rw [ih (fun p hp => h p (by simp [hp]))]
    simp

theorem splitChar_space_line (k v : Str) (hk : ' ' ∉ k) (hv : ' ' ∉ v) :
    splitChar ' ' (k ++ ' ' :: v) = [k, v] := by
  rw [splitChar_append_sep _ hk, splitChar_of_not_mem hv]

theorem foldl_read_flat_lines (m : FlatMap)
    (hwf : ∀ kv ∈ m, ' ' ∉ kv.1 ∧ ' ' ∉ kv.2) :
    ∀ acc : FlatMap,
      (m.map (fun kv => kv.1 ++ ' ' :: kv.2)).foldl
        (fun data line =>
          match splitChar ' ' line with
          | [k, v] => mapInsert data k v
          | _ => data) acc =
      m.foldl (fun d kv => mapInsert d kv.1 kv.2) acc := by
  induction m with
  | nil => intro acc; rfl
  | cons kv rest ih =>
    intro acc
    have hkv := hwf kv (by simp)
    rw [List.map_cons, List.foldl_cons, List.foldl_cons]
    rw [show (match splitChar ' ' (kv.1 ++ ' ' :: kv.2) with
        | [k, v] => mapInsert acc k v
        | _ => acc) = mapInsert acc kv.1 kv.2 by
      rw [splitChar_space_line kv.1 kv.2 hkv.1 hkv.2]]
    exact ih (fun p hp => hwf p (by simp [hp])) (mapInsert acc kv.1 kv.2)

/-- Round trip of the flat-keyed codec on well-formed maps. -/
theorem read_write_flat (m : FlatMap) (hnd : (mapKeys m).Nodup)
    (hwf : ∀ kv ∈ m, flatEntryWf kv) :
    read_flat_keyed_file (some (write_flat_keyed_file m)) = .ok m := by
  simp only [read_flat_keyed_file, write_flat_keyed_file]
  rw [write_flat_eq_join m []]
  rw [show (([] : Str) ++ (m.map flatChunk).flatten) = (m.map flatChunk).flatten from rfl]
  rw [splitChar_newline_flatten m
    (fun kv hkv => ⟨((hwf kv hkv).2.1), ((hwf kv hkv).2.2.2.1)⟩)]
  rw [List.foldl_append]
  rw [foldl_read_flat_lines m
    (fun kv hkv => ⟨((hwf kv hkv).1), ((hwf kv hkv).2.2.1)⟩)]
  rw [foldl_mapInsert_eq_append m [] (by simpa [mapKeys] using hnd)]
  rfl

/-- The block the nested writer emits for one sub-map entry (before the
final character removal). -/
def subChunk (p : Str × Str) : Str := p.1 ++ '=' :: p.2 ++ [' ']

/-- What the nested writer's per-entry string amounts to after the trailing
character removal: `SK=SV` pairs separated by single spaces. -/
def subPairsBody : FlatMap → Str
  | [] => []
  | [p] => p.1 ++ '=' :: p.2
  | p :: rest => p.1 ++ '=' :: p.2 ++ ' ' :: subPairsBody rest

theorem write_nested_inner (sub : FlatMap) :
    ∀ init : Str,
      sub.foldl (fun t p => t ++ p.1 ++ ['='] ++ p.2 ++ [' ']) init =
        init ++ (sub.map subChunk).flatten := by
  induction sub with
  | nil => intro init; simp
  | cons p rest ih =>
    intro init
    rw [List.foldl_cons, ih]
    simp [subChunk]

theorem flatten_subChunk_ne_nil {sub : FlatMap} (h : sub ≠ []) :
    (sub.map subChunk).flatten ≠ [] := by
  match sub with
  | [] => exact absurd rfl h
  | p :: rest =>
    simp only [List.map_cons, List.flatten_cons, subChunk]
    simp

theorem dropLast_flatten_subChunk :
    ∀ sub : FlatMap, sub ≠ [] →
      ((sub.map subChunk).flatten).dropLast = subPairsBody sub
  | [p], _ => by
    simp only [List.map_cons, List.map_nil, List.flatten_cons, List.flatten_nil,
      List.append_nil, subChunk, subPairsBody]
    rw [show (p.1 ++ '=' :: p.2 ++ [' '] : Str) = (p.1 ++ '=' :: p.2) ++ [' '] by simp]
    rw [List.dropLast_concat]
  | p :: q :: rest, _ => by
    rw [List.map_cons, List.flatten_cons,
      List.dropLast_append_of_ne_nil _ (flatten_subChunk_ne_nil (List.cons_ne_nil q rest)),
      dropLast_flatten_subChunk (q :: rest) (List.cons_ne_nil q rest)]
    simp [subChunk, subPairsBody]

theorem not_mem_subPairsBody {c : Char} (hc1 : c ≠ '=') (hc2 : c ≠ ' ') :
    ∀ sub : FlatMap, (∀ p ∈ sub, c ∉ p.1 ∧ c ∉ p.2) → c ∉ subPairsBody sub
  | [], _ => by simp [subPairsBody]
  | [p], h => by
    have hp := h p (by simp)
    simp only [subPairsBody, List.mem_append, List.mem_cons, not_or]
    tauto
  | p :: q :: rest, h => by
    have hp := h p (by simp)
    have htail := not_mem_subPairsBody hc1 hc2 (q :: rest)
      (fun r hr => h r (by simp [List.mem_cons] at hr ⊢; tauto))
    simp only [subPairsBody, List.mem_append, List.mem_cons, not_or]
    tauto

theorem splitChar_pair (sep : Char) (a b : Str) (ha : sep ∉ a) (hb : sep ∉ b) :
    splitChar sep (a ++ sep :: b) = [a, b] := by
  rw [splitChar_append_sep _ ha, splitChar_of_not_mem hb]

theorem splitChar_space_subPairsBody :
    ∀ sub : FlatMap, sub ≠ [] → (∀ p ∈ sub, ' ' ∉ p.1 ∧ ' ' ∉ p.2) →
      splitChar ' ' (subPairsBody sub) = sub.map (fun p => p.1 ++ '=' :: p.2)
  | [p], _, h => by
    have hp := h p (by simp)
    rw [subPairsBody, splitChar_of_not_mem (by
      simp only [List.mem_append, List.mem_cons, not_or]
      exact ⟨hp.1, by decide, hp.2⟩)]
    simp
  | p :: q :: rest, _, h => by
    have hp := h p (by simp)
    rw [show subPairsBody (p :: q :: rest) =
        p.1 ++ '=' :: p.2 ++ ' ' :: subPairsBody (q :: rest) from rfl,
      show (p.1 ++ '=' :: p.2 ++ ' ' :: subPairsBody (q :: rest) : Str) =
        (p.1 ++ '=' :: p.2) ++ ' ' :: subPairsBody (q :: rest) by simp,
      splitChar_append_sep _ (by
        simp only [List.mem_append, List.mem_cons, not_or]
        exact ⟨hp.1, by decide, hp.2⟩),
      splitChar_space_subPairsBody (q :: rest) (List.cons_ne_nil q rest)
        (fun r hr => h r (by simp [List.mem_cons] at hr ⊢; tauto))]
    simp

/-- Well-formedness of one sub-map entry as needed by the nested round
trip: no separator characters on either side. -/
def nestedSubEntryWf (p : Str × Str) : Prop :=
  ' ' ∉ p.1 ∧ '\n' ∉ p.1 ∧ '=' ∉ p.1 ∧ ' ' ∉ p.2 ∧ '\n' ∉ p.2 ∧ '=' ∉ p.2

instance (p : Str × Str) : Decidable (nestedSubEntryWf p) := by
  unfold nestedSubEntryWf
  infer_instance

theorem foldl_read_sub_fields (sub : FlatMap)
    (hwf : ∀ p ∈ sub, '=' ∉ p.1 ∧ '=' ∉ p.2) :
    ∀ acc : FlatMap,
      (sub.map (fun p => p.1 ++ '=' :: p.2)).foldl
        (fun m q =>
          match splitChar '=' q with
          | [sk, sv] => mapInsert m sk sv
          | _ => m) acc =
      sub.foldl (fun m p => mapInsert m p.1 p.2) acc := by
  induction sub with
  | nil => intro acc; rfl
  | cons p rest ih =>
    intro acc
    have hp := hwf p (by simp)
    rw [List.map_cons, List.foldl_cons, List.foldl_cons]
    rw [show (match splitChar '=' (p.1 ++ '=' :: p.2) with
        | [sk, sv] => mapInsert acc sk sv
        | _ => acc) = mapInsert acc p.1 p.2 by
      rw [splitChar_pair '=' p.1 p.2 hp.1 hp.2]]
    exact ih (fun r hr => hwf r (by simp [hr])) (mapInsert acc p.1 p.2)

theorem write_nested_single (k : Str) (sub : FlatMap) (hne : sub ≠ []) :
    write_nested_keyed_file [(k, sub)] = k ++ ' ' :: subPairsBody sub := by
  simp only [write_nested_keyed_file, List.foldl_cons, List.foldl_nil]
  rw [write_nested_inner]
  rw [List.dropLast_append_of_ne_nil _ (flatten_subChunk_ne_nil hne)]
  rw [dropLast_flatten_subChunk sub hne]
  simp

theorem linesOf_single {s : Str} (hne : s ≠ []) (hnl : '\n' ∉ s) :
    linesOf s = [s] := by
  rw [linesOf, if_neg hne]
  simp only [splitChar_of_not_mem hnl]
  rw [if_neg (by
    simp only [List.getLast?_singleton, Option.some.injEq]
    exact hne)]

/-- Round trip of the nested-keyed codec on a single-entry map. -/
theorem read_write_nested_single (k : Str) (sub : FlatMap)
    (hk : ' ' ∉ k ∧ '\n' ∉ k) (hne : sub ≠ [])
    (hnd : (mapKeys sub).Nodup)
    (hwf : ∀ p ∈ sub, nestedSubEntryWf p) :
    read_nested_keyed_file (some (write_nested_keyed_file [(k, sub)])) =
      .ok [(k, sub)] := by
  rw [write_nested_single k sub hne]
  have hnlBody : '\n' ∉ subPairsBody sub :=
    not_mem_subPairsBody (by decide) (by decide) sub
      (fun p hp => ⟨(hwf p hp).2.1, (hwf p hp).2.2.2.2.1⟩)
  have hW_ne : (k ++ ' ' :: subPairsBody sub : Str) ≠ [] := by simp
  have hW_nl : '\n' ∉ (k ++ ' ' :: subPairsBody sub : Str) := by
    simp only [List.mem_append, List.mem_cons, not_or]
    exact ⟨hk.2, by decide, hnlBody⟩
  simp only [read_nested_keyed_file]
  rw [linesOf_single hW_ne hW_nl, List.foldl_cons, List.foldl_nil]
  rw [show splitChar ' ' (k ++ ' ' :: subPairsBody sub) =
      k :: (sub.map fun p => p.1 ++ '=' :: p.2) from by
    rw [splitChar_append_sep _ hk.1,
      splitChar_space_subPairsBody sub hne
        (fun p hp => ⟨(hwf p hp).1, (hwf p hp).2.2.2.1⟩)]]
  simp only
  rw [foldl_read_sub_fields sub
    (fun p hp => ⟨(hwf p hp).2.2.1, (hwf p hp).2.2.2.2.2⟩)]
  rw [foldl_mapInsert_eq_append sub [] (by simpa [mapKeys] using hnd)]
  rfl

/-- The two-entry nested map on which the round-trip claim fails. -/
def nestedTwoKeyMap : NestedMap :=
  [("A".toList, [("S".toList, "V".toList)]),
   ("B".toList, [("T".toList, "W".toList)])]

/-- Claim C5 counterexample: the nested writer emits no newline between
entries, so on the well-formed two-key map `{A: {S: V}, B: {T: W}}` the
writer emits the single line `A S=VB T=W` and reading it back yields
`{A: {S: VB, T: W}}`, not the original map. -/
theorem interface_codec_round_trip_counterexample :
    ("A".toList ≠ "B".toList) ∧
    (∀ kv ∈ nestedTwoKeyMap, ∀ p ∈ kv.2, nestedSubEntryWf p ∧ p.2 ≠ []) ∧
    write_nested_keyed_file nestedTwoKeyMap = "A S=VB T=W".toList ∧
    read_nested_keyed_file (some (write_nested_keyed_file nestedTwoKeyMap)) =
      .ok [("A".toList, [("S".toList, "VB".toList), ("T".toList, "W".toList)])] ∧
    read_nested_keyed_file (some (write_nested_keyed_file nestedTwoKeyMap)) ≠
      .ok nestedTwoKeyMap := by
  refine ⟨by decide, by decide, by decide, by decide, by decide⟩

/-- Claim C5 (amended): the flat-keyed codec round-trips every map whose
keys and values are free of spaces and newlines with non-empty values; the
nested-keyed codec round-trips only maps with at most one key (the writer
emits no newline separator, so maps with two or more keys collapse into one
line), with sub-keys and sub-values additionally free of `=`. -/
theorem interface_codec_round_trip :
    (∀ m : FlatMap, (mapKeys m).Nodup → (∀ kv ∈ m, flatEntryWf kv) →
      read_flat_keyed_file (some (write_flat_keyed_file m)) = .ok m) ∧
    read_nested_keyed_file (some (write_nested_keyed_file [])) = .ok [] ∧
    (∀ (k : Str) (sub : FlatMap), ' ' ∉ k → '\n' ∉ k → sub ≠ [] →
      (mapKeys sub).Nodup → (∀ p ∈ sub, nestedSubEntryWf p) →
      read_nested_keyed_file (some (write_nested_keyed_file [(k, sub)])) =
        .ok [(k, sub)]) :=
  ⟨read_write_flat, rfl,
   fun k sub h1 h2 => read_write_nested_single k sub ⟨h1, h2⟩⟩

/-- Witness for `interface_codec_round_trip` at concrete maps. -/
theorem interface_codec_round_trip_witness :
    read_flat_keyed_file (some (write_flat_keyed_file
        [("KEY0".toList, "VAL0".toList), ("KEY1".toList, "VAL1".toList)])) =
      .ok [("KEY0".toList, "VAL0".toList), ("KEY1".toList, "VAL1".toList)] ∧
    read_nested_keyed_file (some (write_nested_keyed_file
        [("KEY0".toList, [("SUB0".toList, "VAL0".toList)])])) =
      .ok [("KEY0".toList, [("SUB0".toList, "VAL0".toList)])] :=
  ⟨interface_codec_round_trip.1 _ (by decide) (by decide),
   interface_codec_round_trip.2.2 "KEY0".toList _ (by decide) (by decide)
     (by decide) (by decide) (by decide)⟩

/-! ## Cgroup path resolution (`src/cgroup/mod.rs`) -/

/-- `Path::is_absolute` on unix: the path starts with the separator. -/
def pathIsAbsolute (p : Str) : Bool := decide (p.head? = some '/')

/-- `PathBuf::push`: an absolute path replaces the buffer; otherwise a
separator is appended if the buffer is non-empty and does not already end
with one, then the path is appended. -/
def pathPush (buf p : Str) : Str :=
  if pathIsAbsolute p then p
  else if buf = [] then p
  else if buf.getLast? = some '/' then buf ++ p
  else buf ++ '/' :: p

/-- `resolve_cgroup_path` from `src/cgroup/mod.rs`.  The source's
`path.strip_prefix("/")` on an absolute path is modelled as dropping the
leading separator character. -/
def resolve_cgroup_path (config_cgroups_path : Option Str)
    (cgroups_root : Str) (container_id : Str) : Str :=
  match config_cgroups_path with
  | some path =>
    let pb := pathPush [] cgroups_root
    if pathIsAbsolute path then pathPush pb path.tail
    else pathPush pb path
  | none =>
    let pb := pathPush [] cgroups_root
    pathPush pb container_id

theorem pathPush_nil (p : Str) : pathPush [] p = p := by
  unfold pathPush
  split_ifs <;> simp_all

theorem pathPush_of_wf {buf p : Str} (hb : buf ≠ [])
    (hsl : buf.getLast? ≠ some '/') (hp : pathIsAbsolute p = false) :
    pathPush buf p = buf ++ '/' :: p := by
  unfold pathPush
  rw [if_neg (by simp [hp]), if_neg hb, if_neg hsl]

/-- Claim C6: cgroup path resolution.  Absent `cgroups_path` yields
`<root>/<id>`; a relative path is joined below the root; an absolute path is
joined below the root after stripping its leading separator (so the result
is the root string followed by the absolute path); and the two concrete
examples of the spec hold. -/
theorem resolve_cgroup_path_spec :
    resolve_cgroup_path (some "/myruntime/mycontainer".toList)
        "/sys/fs/cgroup".toList "c".toList =
      "/sys/fs/cgroup/myruntime/mycontainer".toList ∧
    resolve_cgroup_path none "/sys/fs/cgroup".toList "c".toList =
      "/sys/fs/cgroup/c".toList ∧
    (∀ root id : Str, root ≠ [] → root.getLast? ≠ some '/' →
      pathIsAbsolute id = false →
      resolve_cgroup_path none root id = root ++ '/' :: id) ∧
    (∀ root path id : Str, pathIsAbsolute path = true →
      pathIsAbsolute path.tail = false →
      root ≠ [] → root.getLast? ≠ some '/' →
      resolve_cgroup_path (some path) root id = root ++ path) ∧
    (∀ root path id : Str, pathIsAbsolute path = false → path ≠ [] →
      root ≠ [] → root.getLast? ≠ some '/' →
      resolve_cgroup_path (some path) root id = root ++ '/' :: path) := by
  refine ⟨by decide, by decide, ?_, ?_, ?_⟩
  · intro root id hroot hsl hid
    rw [resolve_cgroup_path]
    simp only [pathPush_nil]
    exact pathPush_of_wf hroot hsl hid
  · intro root path id habs htail hroot hsl
    have hcons : path = '/' :: path.tail := by
      rcases path with _ | ⟨c, rest⟩
      · simp [pathIsAbsolute] at habs
      · simp only [pathIsAbsolute, List.head?, Option.some.injEq,
          decide_eq_true_eq] at habs
        simp [habs]
    rw [resolve_cgroup_path]
    simp only [pathPush_nil, if_pos habs]
    rw [pathPush_of_wf hroot hsl htail]
    conv in root ++ path => rw [hcons]
  · intro root path id hrel hpne hroot hsl
    rw [resolve_cgroup_path]
    simp only [pathPush_nil]
    rw [if_neg (by simp [hrel])]
    exact pathPush_of_wf hroot hsl hrel

/-- Witness for `resolve_cgroup_path_spec` at concrete inputs. -/
theorem resolve_cgroup_path_spec_witness :
    resolve_cgroup_path none "/sys/fs/cgroup".toList "box".toList =
      "/sys/fs/cgroup".toList ++ '/' :: "box".toList ∧
    resolve_cgroup_path (some "/a/b".toList) "/sys/fs/cgroup".toList "box".toList =
      "/sys/fs/cgroup".toList ++ "/a/b".toList ∧
    resolve_cgroup_path (some "a/b".toList) "/sys/fs/cgroup".toList "box".toList =
      "/sys/fs/cgroup".toList ++ '/' :: "a/b".toList :=
  ⟨resolve_cgroup_path_spec.2.2.1 _ _ (by decide) (by decide) (by decide),
   resolve_cgroup_path_spec.2.2.2.1 _ _ "box".toList (by decide) (by decide)
     (by decide) (by decide),
   resolve_cgroup_path_spec.2.2.2.2 _ _ "box".toList (by decide) (by decide)
     (by decide) (by decide)⟩

/-! ## Block I/O controller (`src/cgroup/mod.rs`) -/

/-- `config::DevThrottle`. -/
structure DevThrottle where
  major : Int
  minor : Int
  rate : Nat

/-- `config::WeightDevice` (only the fields `set_cgroup_blockio` uses). -/
structure WeightDevice where
  major : Int
  minor : Int
  weight : Option Nat

/-- `config::BlockIO` (only the fields `set_cgroup_blockio` uses). -/
structure BlockIO where
  weight : Option Nat
  weight_device : Option (List WeightDevice)
  throttle_read_bps_device : Option (List DevThrottle)
  throttle_write_bps_device : Option (List DevThrottle)
  throttle_read_iops_device : Option (List DevThrottle)
  throttle_write_iops_device : Option (List DevThrottle)

/-- The `<major>:<minor>` device key built by `format!` in the source. -/
def devKey (major minor : Int) : Str :=
  (toString major).toList ++ ':' :: (toString minor).toList

/-- `update_device` from `src/cgroup/mod.rs`.  NOTE: when the device key
already exists in the map, the source inserts under the literal sub-key
`"rbps"` instead of the `subkey` parameter; only the fresh-key branch uses
`subkey`. -/
def update_device (dev_list : List DevThrottle) (subkey : Str)
    (file_map : NestedMap) : NestedMap :=
  dev_list.foldl
    (fun m dev =>
      match nestedLookup (devKey dev.major dev.minor) m with
      | some _ =>
        nestedUpdateSub m (devKey dev.major dev.minor) "rbps".toList
          (toString dev.rate).toList
      | none =>
        nestedInsert m (devKey dev.major dev.minor)
          [(subkey, (toString dev.rate).toList)]) file_map

/-- `set_cgroup_blockio` from `src/cgroup/mod.rs`, pure part: takes the
current contents of `io.weight` and `io.max` and returns the contents
written back (the `io.weight` output is `none` when no weight is
configured and the file is left untouched). -/
def set_cgroup_blockio (blockio : BlockIO)
    (ioWeightFile ioMaxFile : FileInput) :
    Except ContainerErr (Option Str × Str) := do
  let weightOut ←
    match blockio.weight with
    | some weight => do
      let data ← read_flat_keyed_file ioWeightFile
      let data :=
        match blockio.weight_device with
        | some weight_devices =>
          weight_devices.foldl
            (fun d device =>
              match device.weight with
              | some device_weight =>
                mapInsert d (devKey device.major device.minor)
                  (toString device_weight).toList
              | none => d) data
        | none => data
      let data := mapInsert data "default".toList (toString weight).toList
      pure (some (write_flat_keyed_file data))
    | none => pure none
  let io_max ← read_nested_keyed_file ioMaxFile
  let io_max :=
    match blockio.throttle_read_bps_device with
    | some l => update_device l "rbps".toList io_max
    | none => io_max
  let io_max :=
    match blockio.throttle_write_bps_device with
    | some l => update_device l "wbps".toList io_max
    | none => io_max
  let io_max :=
    match blockio.throttle_read_iops_device with
    | some l => update_device l "riops".toList io_max
    | none => io_max
  let io_max :=
    match blockio.throttle_write_iops_device with
    | some l => update_device l "wiops".toList io_max
    | none => io_max
  pure (weightOut, write_nested_keyed_file io_max)

/-- Claim C7 evaluated at the failing input: a write-iops throttle of rate
1000 for device 8:0.  When the key `8:0` already exists in the map parsed
from `io.max`, the rate is inserted under the sub-key `rbps`, not `wiops`
(only the fresh-key branch honours the sub-key), and the map written back
to `io.max` records `rbps=1000`. -/
theorem update_device_existing_key_uses_rbps :
    update_device [⟨8, 0, 1000⟩] "wiops".toList [("8:0".toList, [])] =
      [("8:0".toList, [("rbps".toList, "1000".toList)])] ∧
    update_device [⟨8, 0, 1000⟩] "wiops".toList [] =
      [("8:0".toList, [("wiops".toList, "1000".toList)])] ∧
    set_cgroup_blockio
        ⟨none, none, none, none, none, some [⟨8, 0, 1000⟩]⟩
        none (some "8:0 wbps=100".toList) =
      .ok (none, "8:0 wbps=100 rbps=1000".toList) := by
  refine ⟨by decide, by decide, by decide⟩

/-! ## Environment installation (`src/process.rs`) -/

/-- `std::env::remove_var`: drop the entry with the given key from the
process environment. -/
def envRemove (env : FlatMap) (k : Str) : FlatMap :=
  match env with
  | [] => []
  | kv :: rest => if kv.1 = k then envRemove rest k else kv :: envRemove rest k

/-- `clear_env` from `src/process.rs`.  NOTE the source iterates
`std::env::args()` — the command-line arguments — not the environment:
for each argument that splits on `=` into exactly two parts it removes that
key from the process environment. -/
def clear_env (argv : List Str) (procEnv : FlatMap) : FlatMap :=
  argv.foldl
    (fun env pair =>
      match splitChar '=' pair with
      | [k, _v] => envRemove env k
      | _ => env) procEnv

/-- `populate_env` from `src/process.rs`: for each configured `KEY=VALUE`
entry that splits on `=` into exactly two parts, set it in the process
environment; other entries are skipped. -/
def populate_env (envCfg : Option (List Str)) (procEnv : FlatMap) : FlatMap :=
  match envCfg with
  | none => procEnv
  | some vars =>
    vars.foldl
      (fun env env_var =>
        match splitChar '=' env_var with
        | [k, v] => mapInsert env k v
        | _ => env) procEnv

/-- Claim C8 evaluated at the failing input: `clear_env` parses the
command-line arguments, not the inherited environment.  With argv
`[create, mycontainer, /bundle]` (no argument contains a single `=`) the
inherited environment `{HOME: /root, PATH: /bin}` survives untouched,
while an argv entry of the shape `K=V` does remove `K`; `populate_env`
sets exactly the well-formed `KEY=VALUE` entries. -/
theorem clear_env_iterates_argv_not_env :
    clear_env ["create".toList, "mycontainer".toList, "/bundle".toList]
        [("HOME".toList, "/root".toList), ("PATH".toList, "/bin".toList)] =
      [("HOME".toList, "/root".toList), ("PATH".toList, "/bin".toList)] ∧
    clear_env ["HOME=/x".toList]
        [("HOME".toList, "/root".toList), ("PATH".toList, "/bin".toList)] =
      [("PATH".toList, "/bin".toList)] ∧
    populate_env (some ["A=1".toList, "B".toList, "C=2=3".toList]) [] =
      [("A".toList, "1".toList)] := by
  refine ⟨by decide, by decide, by decide⟩

/-! ## Container status serialization (`src/state.rs`) -/

/-- `state::Status`. -/
inductive Status where
  | Creating
  | Created
  | Running
  | Stopped
  deriving DecidableEq, Repr

/-- The serde serialization of `Status`, per the `rename` attributes in
`src/state.rs`: note `Stopped` is renamed to the string `stoped`. -/
def statusStr : Status → Str
  | .Creating => "creating".toList
  | .Created => "created".toList
  | .Running => "running".toList
  | .Stopped => "stoped".toList

/-- The serde deserialization of `Status`, per the same `rename`
attributes: exactly the four renamed strings parse. -/
def statusFromStr (s : Str) : Option Status :=
  if s = "creating".toList then some .Creating
  else if s = "created".toList then some .Created
  else if s = "running".toList then some .Running
  else if s = "stoped".toList then some .Stopped
  else none

/-- Claim C9 evaluated at the failing input `Status::Stopped`: the code
serializes it as `stoped` (a typo in the serde rename), not `stopped`, and
parsing `stopped` fails; the other three statuses serialize and parse as
the claim states. -/
theorem status_stopped_serializes_stoped :
    statusStr .Stopped = "stoped".toList ∧
    statusStr .Stopped ≠ "stopped".toList ∧
    statusFromStr "stopped".toList = none ∧
    statusStr .Creating = "creating".toList ∧
    statusStr .Created = "created".toList ∧
    statusStr .Running = "running".toList ∧
    statusFromStr "creating".toList = some .Creating ∧
    statusFromStr "created".toList = some .Created ∧
    statusFromStr "running".toList = some .Running ∧
    statusFromStr "stoped".toList = some .Stopped := by
  decide

/-! ## Create orchestration (`src/cmd/create.rs`, `src/init.rs`) -/

/-- `state::State` from `src/state.rs` (the `annotations` field is named
`annots` here). -/
structure StateRec where
  oci_version : Str
  pid : Nat
  container_id : Str
  status : Status
  bundle : Str
  annots : FlatMap
  deriving DecidableEq, Repr

/-- `State::new`: status `Creating`, pid 0, empty annotations. -/
def StateRec.new (container_id bundle oci_version : Str) : StateRec :=
  { oci_version, pid := 0, container_id, status := .Creating, bundle, annots := [] }

/-- `State::update_status`. -/
def StateRec.update_status (s : StateRec) (status : Status) : StateRec :=
  { s with status }

/-- `State::set_pid`. -/
def StateRec.set_pid (s : StateRec) (pid : Nat) : StateRec :=
  { s with pid }

/-- `container::Container`, reduced to its state (the configuration plays
no role in the choreography being verified). -/
structure Container where
  state : StateRec
  deriving DecidableEq, Repr

/-- `Container::new`: wraps `State::new` (the oci version is copied from
the configuration). -/
def Container.new (container_id bundle oci_version : Str) : Container :=
  ⟨StateRec.new container_id bundle oci_version⟩

/-- Observable events of the create/init choreography, in the order the
parent and child perform them. -/
inductive Event where
  /-- A write of a state snapshot to `<state_root>/<id>/state.json`. -/
  | persistState (s : StateRec)
  | createPipe
  | mkfifoCall
  | joinNamespacesStep
  | clearEnvStep
  | populateEnvStep
  | setRlimitsStep
  | setIoprioStep
  | setupRootfsStep
  /-- The child writing the readiness integer to the ready pipe. -/
  | writeReady (status : Int)
  /-- The parent reading the readiness integer from the ready pipe. -/
  | readReady (status : Int)
  /-- `wait_for_exec`: the blocking open of the exec FIFO for read. -/
  | openFifoForRead
  | execStep
  | childExit (code : Int)
  deriving DecidableEq, Repr

/-- Modelled from the spec: `Container::write_state` is called by
`src/cmd/create.rs` but its body is not under `src/`; per the spec the
state is serialized to `<state_root>/<id>/state.json` on every status
transition, so it emits a persist event carrying the container's current
state. -/
def Container.write_state (c : Container) : Event :=
  .persistState c.state

/-- Modelled from the spec: `Container::update_status` is called by
`src/cmd/create.rs` but its body is not under `src/`; it delegates to
`State::update_status` (which is in `src/state.rs`). -/
def Container.update_status (c : Container) (status : Status) : Container :=
  ⟨c.state.update_status status⟩

/-- Modelled from the spec: `Container::state_mut` is not under `src/`; the
child's `args.container.state_mut().set_pid(pid)` amounts to updating the
state through `State::set_pid` (which is in `src/state.rs`). -/
def Container.set_pid (c : Container) (pid : Nat) : Container :=
  ⟨c.state.set_pid pid⟩

/-- Which fallible child-init steps succeed in a given run. -/
structure ChildEnv where
  join_ns_ok : Bool
  rlimits_ok : Bool
  ioprio_ok : Bool
  rootfs_ok : Bool
  deriving DecidableEq, Repr

/-- `init` from `src/init.rs` as a trace semantics: the child sets its pid
on its own copy of the container, runs the setup steps in source order, and
on the first failing step calls `exit(1)` — producing a `childExit 1` event
with NO write to the ready pipe.  On success it writes the constant 0 to
the ready pipe (only when the write fd is positive, as in
`notify_container_ready`), then blocks opening the FIFO, then execs. -/
def init (env : ChildEnv) (pid : Nat) (rdy_pipe_write_fd : Int)
    (c : Container) : List Event × Container :=
  let c := c.set_pid pid
  if env.join_ns_ok = false then
    ([.joinNamespacesStep, .childExit 1], c)
  else if env.rlimits_ok = false then
    ([.joinNamespacesStep, .clearEnvStep, .populateEnvStep, .setRlimitsStep,
      .childExit 1], c)
  else if env.ioprio_ok = false then
    ([.joinNamespacesStep, .clearEnvStep, .populateEnvStep, .setRlimitsStep,
      .setIoprioStep, .childExit 1], c)
  else if env.rootfs_ok = false then
    ([.joinNamespacesStep, .clearEnvStep, .populateEnvStep, .setRlimitsStep,
      .setIoprioStep, .setupRootfsStep, .childExit 1], c)
  else
    ([.joinNamespacesStep, .clearEnvStep, .populateEnvStep, .setRlimitsStep,
      .setIoprioStep, .setupRootfsStep] ++
     (if rdy_pipe_write_fd > 0 then [.writeReady 0] else []) ++
     [.openFifoForRead, .execStep], c)

/-- The parent branch of `init_container_proc` from `src/cmd/create.rs`:
read the readiness integer from the pipe (the EINTR retry loop is elided);
if it is positive, return the `Init` error, otherwise return `Ok`. -/
def init_container_proc_parent (ready_status : Int) :
    List Event × Except ContainerErr Unit :=
  ([.readReady ready_status],
   if ready_status > 0 then .error .init else .ok ())

/-- `create` from `src/cmd/create.rs` as seen by the parent process.
Configuration loading, context setup, cgroup detection/creation and the
clone itself are assumed to succeed (their failure paths abort before any
event relevant to the claims); `container_exists` is the result of the
`Container::exists` pre-check and `ready_status` the integer the parent
reads from the ready pipe. -/
def create (container_id bundle oci_version : Str)
    (container_exists : Bool) (ready_status : Int) :
    List Event × Except ContainerErr Unit :=
  let c := Container.new container_id bundle oci_version
  if container_exists then ([], .error .state)
  else
    let t := [c.write_state, Event.createPipe, Event.mkfifoCall]
    let pr := init_container_proc_parent ready_status
    match pr.2 with
    | .error e => (t ++ pr.1, .error e)
    | .ok _ =>
      let c := c.update_status .Created
      (t ++ pr.1 ++ [c.write_state], .ok ())

/-- The contents of `state.json` after a trace: the snapshot of the last
persist event. -/
def lastPersisted (t : List Event) : Option StateRec :=
  t.foldl (fun acc e => match e with | .persistState s => some s | _ => acc) none

/-- A concrete container for evaluating the choreography. -/
def sampleContainer : Container :=
  Container.new "foobar".toList "/blag/".toList "1.0.1".toList

/-- Claim C1 evaluated at the failing inputs: on each of the four
child-init failures before the ready-notify point (joining namespaces,
rlimits, I/O priority, rootfs), the child exits with code 1 but writes NO
readiness status to the ready pipe — `exit(1)` is called before
`notify_container_ready` ever runs.  The parent half of the claim holds:
reading a positive status yields the `Init` error, reading zero yields
`Ok`. -/
theorem child_failure_no_ready_write :
    ((init ⟨false, true, true, true⟩ 42 3 sampleContainer).1 =
      [.joinNamespacesStep, .childExit 1]) ∧
    ((init ⟨true, false, true, true⟩ 42 3 sampleContainer).1 =
      [.joinNamespacesStep, .clearEnvStep, .populateEnvStep, .setRlimitsStep,
       .childExit 1]) ∧
    ((init ⟨true, true, false, true⟩ 42 3 sampleContainer).1 =
      [.joinNamespacesStep, .clearEnvStep, .populateEnvStep, .setRlimitsStep,
       .setIoprioStep, .childExit 1]) ∧
    ((init ⟨true, true, true, false⟩ 42 3 sampleContainer).1 =
      [.joinNamespacesStep, .clearEnvStep, .populateEnvStep, .setRlimitsStep,
       .setIoprioStep, .setupRootfsStep, .childExit 1]) ∧
    (∀ st : Int,
      Event.writeReady st ∉ (init ⟨false, true, true, true⟩ 42 3 sampleContainer).1 ∧
      Event.writeReady st ∉ (init ⟨true, false, true, true⟩ 42 3 sampleContainer).1 ∧
      Event.writeReady st ∉ (init ⟨true, true, false, true⟩ 42 3 sampleContainer).1 ∧
      Event.writeReady st ∉ (init ⟨true, true, true, false⟩ 42 3 sampleContainer).1) ∧
    init_container_proc_parent 1 = ([.readReady 1], .error .init) ∧
    init_container_proc_parent 0 = ([.readReady 0], .ok ()) := by
  refine ⟨by decide, by decide, by decide, by decide, ?_, by decide, by decide⟩
  intro st
  refine ⟨?_, ?_, ?_, ?_⟩ <;> simp [init, sampleContainer, Container.new, Container.set_pid]

/-- Claim C2 evaluated at a successful create: the parent returns `Ok`
and the final persisted `state.json` has status `created` but pid 0 — the
only `set_pid` call happens in the child's copy of the container (which is
never persisted), so the parent persists the initial pid.  The last two
conjuncts exhibit exactly that: the child's in-memory copy carries its pid,
and the child never persists any state. -/
theorem create_persists_pid_zero :
    (create "foobar".toList "/blag/".toList "1.0.1".toList false 0).2 = .ok () ∧
    lastPersisted (create "foobar".toList "/blag/".toList "1.0.1".toList false 0).1 =
      some { oci_version := "1.0.1".toList, pid := 0,
             container_id := "foobar".toList, status := .Created,
             bundle := "/blag/".toList, annots := [] } ∧
    (init ⟨true, true, true, true⟩ 42 3 sampleContainer).2.state.pid = 42 ∧
    (∀ s : StateRec,
      Event.persistState s ∉ (init ⟨true, true, true, true⟩ 42 3 sampleContainer).1) := by
  refine ⟨by decide, by decide, by decide, ?_⟩
  intro s
  simp [init, sampleContainer, Container.new, Container.set_pid]

/-- Claim C3: rendezvous ordering.  In the child, whenever the trace opens
the exec FIFO, the write of the ready status (the constant 0) strictly
precedes it: the trace splits as `t1 ++ writeReady 0 :: t2` with the FIFO
open only in `t2`.  In the parent, every persist of a `created` state comes
strictly after the ready-pipe read: the trace splits as
`t1 ++ readReady :: t2` with only `creating` states persisted in `t1` and
the `created` persist in `t2`. -/
theorem create_ready_rendezvous_ordering :
    (∀ (env : ChildEnv) (pid : Nat) (fd : Int) (c : Container),
      fd > 0 → Event.openFifoForRead ∈ (init env pid fd c).1 →
      ∃ t1 t2, (init env pid fd c).1 = t1 ++ Event.writeReady 0 :: t2 ∧
        Event.openFifoForRead ∉ t1 ∧ Event.openFifoForRead ∈ t2) ∧
    (∀ (container_id bundle oci_version : Str) (ready : Int) (s : StateRec),
      Event.persistState s ∈ (create container_id bundle oci_version false ready).1 →
      s.status = .Created →
      ∃ t1 t2, (create container_id bundle oci_version false ready).1 =
          t1 ++ Event.readReady ready :: t2 ∧
        (∀ s2 : StateRec, Event.persistState s2 ∈ t1 → s2.status = .Creating) ∧
        Event.persistState s ∈ t2) := by
  constructor
  · intro env pid fd c hfd hmem
    obtain ⟨j, r, i, ro⟩ := env
    cases j <;> cases r <;> cases i <;> cases ro
    all_goals
      first
        | (simp [init, Container.set_pid] at hmem; done)
        | (refine ⟨[.joinNamespacesStep, .clearEnvStep, .populateEnvStep,
              .setRlimitsStep, .setIoprioStep, .setupRootfsStep],
              [.openFifoForRead, .execStep], ?_, by decide, by decide⟩
           simp [init, hfd, Container.set_pid])
  · intro container_id bundle oci_version ready s hmem hstat
    by_cases hr : ready > 0
    · simp [create, init_container_proc_parent, hr, Container.new, Container.write_state, Container.update_status] at hmem
      subst hmem
      simp [StateRec.new] at hstat
    · have hmem2 : s = StateRec.new container_id bundle oci_version ∨
          s = (StateRec.new container_id bundle oci_version).update_status .Created := by
        simp [create, init_container_proc_parent, hr, Container.new, Container.write_state, Container.update_status] at hmem
        tauto
      rcases hmem2 with h | h
      · subst h
        simp [StateRec.new] at hstat
      · subst h
        refine ⟨[Event.persistState (StateRec.new container_id bundle oci_version),
            Event.createPipe, Event.mkfifoCall],
            [Event.persistState
              ((StateRec.new container_id bundle oci_version).update_status .Created)],
            ?_, ?_, by simp⟩
        · simp [create, init_container_proc_parent, hr, Container.new, Container.write_state, Container.update_status]
        · intro s2 h2
          simp at h2
          rcases h2 with h2
          subst h2
          rfl

/-- Witness for `create_ready_rendezvous_ordering` at a concrete run. -/
theorem create_ready_rendezvous_ordering_witness :
    (∃ t1 t2,
      (init ⟨true, true, true, true⟩ 42 3 sampleContainer).1 =
        t1 ++ Event.writeReady 0 :: t2 ∧
      Event.openFifoForRead ∉ t1 ∧ Event.openFifoForRead ∈ t2) ∧
    (∃ t1 t2,
      (create "foobar".toList "/blag/".toList "1.0.1".toList false 0).1 =
        t1 ++ Event.readReady 0 :: t2 ∧
      (∀ s2 : StateRec, Event.persistState s2 ∈ t1 → s2.status = .Creating) ∧
      Event.persistState ((StateRec.new "foobar".toList "/blag/".toList
        "1.0.1".toList).update_status .Created) ∈ t2) :=
  ⟨create_ready_rendezvous_ordering.1 ⟨true, true, true, true⟩ 42 3
      sampleContainer (by decide) (by decide),
   create_ready_rendezvous_ordering.2 "foobar".toList "/blag/".toList
      "1.0.1".toList 0 _ (by decide) (by decide)⟩

end ContainerRuntime
